import Mathlib

/-!
Verification development for the tiny-systems/common-module component library.

Each component's message-handling logic is shallowly embedded as pure Lean
functions over explicit state; side effects of the Go handlers (metadata
mutations sent on the reconcile port, emissions on output ports) are recorded
as explicit effect/emission traces.  Go maps are modelled as association
lists; Go `interface{}` payload values as the `GoValue` inductive.
-/

namespace CommonModule

/-- Reserved system-port names of the host (spec section 6); the Go code
imports these from the external `module`/`v1alpha1` packages. -/
def ReconcilePort : String := "_reconcile"

def SettingsPort : String := "_settings"

def ControlPort : String := "_control"

def StatePort : String := "_state"

/-- Dynamic Go value (`interface{}`), restricted to the JSON-like shapes the
components receive from the host: nil, booleans, numbers, strings,
`map[string]any` objects and `map[string]string` maps.  Go structs reached via
the reflection branch of groupby's `extractPath` are not modelled (payloads
arrive JSON-decoded as maps). -/
inductive GoValue where
  | null
  | boolean (b : Bool)
  | num (n : Int)
  | str (s : String)
  | obj (fields : List (String × GoValue))
  | strMap (fields : List (String × String))
deriving Repr

/-- Association-list lookup, mirroring Go map indexing `v[k]` (comma-ok form). -/
def lookupStr {α : Type} (l : List (String × α)) (k : String) : Option α :=
  match l with
  | [] => none
  | (k', v) :: rest => if k' = k then some v else lookupStr rest k

/-- Association-list update, mirroring Go map assignment `m[k] = v`
(replace the binding if the key exists, otherwise append). -/
def setKey {α : Type} (l : List (String × α)) (k : String) (v : α) : List (String × α) :=
  match l with
  | [] => [(k, v)]
  | (k', v') :: rest => if k' = k then (k, v) :: rest else (k', v') :: setKey rest k v

/-- Association-list removal, mirroring Go `delete(m, k)`. -/
def delKey {α : Type} (l : List (String × α)) (k : String) : List (String × α) :=
  match l with
  | [] => []
  | (k', v') :: rest => if k' = k then rest else (k', v') :: delKey rest k

/-- Lexicographic comparison of character lists: the ascending string order
used by Go's `sort.Strings` and `json.Marshal` key ordering (bytewise in Go;
on the ASCII keys in play, bytewise and characterwise coincide). -/
def charListLeb : List Char → List Char → Bool
  | [], _ => true
  | _ :: _, [] => false
  | a :: as, b :: bs => if a = b then charListLeb as bs else decide (a < b)

/-- Ascending string order (see `charListLeb`). -/
def strLe (a b : String) : Prop := charListLeb a.data b.data = true

instance : DecidableRel strLe := fun a b => inferInstanceAs (Decidable (_ = true))

end CommonModule

namespace Kv

open CommonModule

/-- Metadata key namespace of the kv component (`metadataPrefix` in kv.go). -/
def metaKeyPre : String := "kv-"

/-- `defaultMaxRecords` in kv.go. -/
def defaultMaxRecords : Nat := 100

/-- `maxRecordSizeBytes` in kv.go: 32 KiB per serialized record. -/
def maxRecordSizeBytes : Nat := 32 * 1024

/-- Scalar JSON value of a stored document field.  kv documents are
`map[string]interface{}`; the claims under verification do not depend on
nested document values, so fields are restricted to JSON scalars here. -/
inductive DocValue where
  | null
  | boolean (b : Bool)
  | num (n : Int)
  | str (s : String)
deriving Repr, DecidableEq

/-- `Document` in kv.go: the user-defined value structure (a Go map,
modelled as an association list). -/
def Document : Type := List (String × DocValue)

/-- `Settings` in kv.go (the `document` schema field does not influence the
handlers beyond validation and is omitted from the state). -/
structure Settings where
  primaryKey : String
  maxRecords : Nat
  enableStoreAck : Bool
deriving Repr, DecidableEq

/-- `StoreRequest` in kv.go; `operation` is a plain string in Go
(`"store"` / `"delete"` expected, anything else rejected). -/
structure StoreRequest where
  context : GoValue
  operation : String
  document : Document

/-- The kv `Component` state: settings, the in-memory records map
(primary key to serialized bytes, bytes modelled as `String`), and the
store-used guard. -/
structure Component where
  settings : Settings
  records : List (String × String)
  storeUsed : Bool

/-- `Instance()` in kv.go (initial state; the schema example document is
irrelevant to the handlers and kept empty). -/
def instance_ : Component :=
  { settings := { primaryKey := "id", maxRecords := defaultMaxRecords, enableStoreAck := false }
    records := []
    storeUsed := false }

/-- Side effects a kv handler performs through the emit handler: metadata
mutations sent on the reconcile port, control-port redraws, and store-ack
emissions. -/
inductive Effect where
  | metaSet (key value : String)
  | metaDel (key : String)
  | controlRedraw (records : Nat)
  | emitAck (req : StoreRequest)

/-- Minimal JSON string escaping for `json.Marshal` (quote and backslash;
Go additionally escapes control and HTML characters, which no claim
depends on). -/
def escapeJson (s : String) : String :=
  s.foldl (fun acc c =>
    if c = '"' then acc ++ "\\\""
    else if c = '\\' then acc ++ "\\\\"
    else acc.push c) ""

/-- JSON rendering of a scalar document value. -/
def jsonOfDocValue : DocValue → String
  | .null => "null"
  | .boolean true => "true"
  | .boolean false => "false"
  | .num n => toString n
  | .str s => "\"" ++ escapeJson s ++ "\""

/-- Insertion into a key-sorted field list (Go's `json.Marshal` emits map
keys in sorted order). -/
def insertSorted (kv : String × DocValue) : List (String × DocValue) → List (String × DocValue)
  | [] => [kv]
  | kv' :: rest => if strLe kv.1 kv'.1 then kv :: kv' :: rest else kv' :: insertSorted kv rest

/-- Sort document fields by key. -/
def sortFields (l : List (String × DocValue)) : List (String × DocValue) :=
  l.foldr insertSorted []

/-- Render a comma-separated JSON field list. -/
def jsonOfFields : List (String × DocValue) → String
  | [] => ""
  | [(k, v)] => "\"" ++ escapeJson k ++ "\":" ++ jsonOfDocValue v
  | (k, v) :: rest => "\"" ++ escapeJson k ++ "\":" ++ jsonOfDocValue v ++ "," ++ jsonOfFields rest

/-- `json.Marshal` of a kv document (keys in sorted order). -/
def jsonOfDoc (d : Document) : String :=
  "\x7b" ++ jsonOfFields (sortFields d) ++ "\x7d"

/-- Result of a kv handler invocation: the new component state, the emitted
effects in order, and the returned error (`none` models a nil return; the
store-ack emission's downstream result is abstracted to nil). -/
structure HandleResult where
  comp : Component
  effects : List Effect
  err : Option String

/-- `handleReconcile` in kv.go.  `msg` is `none` when the reconcile payload
is not a `TinyNode` or its metadata map is nil (both early-return paths).
When the store-used guard is set the metadata is ignored; otherwise every
`kv-`-prefixed metadata entry is merged into the records map. -/
def handleReconcile (c : Component) (msg : Option (List (String × String))) : Component :=
  match msg with
  | none => c
  | some metadata =>
    if c.storeUsed then c
    else
      { c with
        records :=
          (metadata.filter (fun kv => kv.1.startsWith metaKeyPre)).foldl
            (fun r kv => setKey r (kv.1.drop metaKeyPre.length) kv.2) c.records }

/-- `handleStore` in kv.go: validate the primary key, set the store-used
guard, then perform the store or delete operation, mirroring it into
metadata and redrawing the control port. -/
def handleStore (c : Component) (req : StoreRequest) : HandleResult :=
  let pk := c.settings.primaryKey
  match lookupStr req.document pk with
  | none => { comp := c, effects := [], err := some ("primary key \"" ++ pk ++ "\" not found in document") }
  | some pkVal =>
    match pkVal with
    | .str pkStr =>
      if pkStr = "" then
        { comp := c, effects := [], err := some "primary key cannot be empty" }
      else
        let c1 : Component := { c with storeUsed := true }
        let metaKey := metaKeyPre ++ pkStr
        if req.operation = "store" then
          let data := jsonOfDoc req.document
          if data.utf8ByteSize > maxRecordSizeBytes then
            { comp := c1, effects := [], err := some "document too large" }
          else if (lookupStr c1.records pkStr).isNone && c1.records.length ≥ c.settings.maxRecords then
            { comp := c1, effects := [], err := some "store full" }
          else
            let c2 : Component := { c1 with records := setKey c1.records pkStr data }
            { comp := c2
              effects := [.metaSet metaKey data, .controlRedraw c2.records.length] ++
                (if c.settings.enableStoreAck then [.emitAck req] else [])
              err := none }
        else if req.operation = "delete" then
          let c2 : Component := { c1 with records := delKey c1.records pkStr }
          { comp := c2
            effects := [.metaDel metaKey, .controlRedraw c2.records.length] ++
              (if c.settings.enableStoreAck then [.emitAck req] else [])
            err := none }
        else
          { comp := c1, effects := [], err := some ("unknown operation: " ++ req.operation) }
    | _ => { comp := c, effects := [], err := some "primary key must be a string" }

/-- A store/delete request whose document carries a non-empty string primary
key: exactly the requests that pass `handleStore`'s validation and reach the
line that sets the store-used guard. -/
def validPk (c : Component) (req : StoreRequest) : Prop :=
  ∃ s, lookupStr req.document c.settings.primaryKey = some (.str s) ∧ s ≠ ""

end Kv

namespace GroupBy

open CommonModule

/-- `OutPort` in groupby.go. -/
def OutPort : String := "out"

/-- `InMessage` in groupby.go. -/
structure InMessage where
  context : GoValue
  items : List GoValue

/-- `Group` in groupby.go. -/
structure Group where
  key : String
  items : List GoValue
  count : Nat

/-- `OutMessage` in groupby.go. -/
structure OutMessage where
  context : GoValue
  groups : List Group
  total : Nat

/-- Rendering of a `map[string]string` under Go's `fmt.Sprintf("%v", ·)`
(see `display`). -/
def displayStrFields : List (String × String) → String
  | [] => ""
  | [(k, v)] => k ++ ":" ++ v
  | (k, v) :: rest => k ++ ":" ++ v ++ " " ++ displayStrFields rest

mutual

/-- `fmt.Sprintf("%v", v)`, the final key conversion in `extractPath`.
Deviation from Go (irrelevant to the claims, which use scalar-valued group
keys): Go renders map entries in sorted key order, this model in stored
order. -/
def display : GoValue → String
  | .null => "<nil>"
  | .boolean true => "true"
  | .boolean false => "false"
  | .num n => toString n
  | .str s => s
  | .obj fields => "map[" ++ displayFields fields ++ "]"
  | .strMap fields => "map[" ++ displayStrFields fields ++ "]"

/-- Space-separated `k:v` rendering of object fields for `display`. -/
def displayFields : List (String × GoValue) → String
  | [] => ""
  | [(k, v)] => k ++ ":" ++ display v
  | (k, v) :: rest => k ++ ":" ++ display v ++ " " ++ displayFields rest

end

/-- `extractPath` in groupby.go: walk the dot-path through maps; a nil value
returns "", a `map[string]any` step continues with the field (missing field
gives nil), a `map[string]string` step returns the looked-up string at once
(or "" when missing), any other non-struct value returns "".  After the
walk, nil gives "" and anything else is rendered with `%v`. -/
def extractPath (current : GoValue) : List String → String
  | [] =>
    match current with
    | .null => ""
    | v => display v
  | part :: rest =>
    match current with
    | .null => ""
    | .obj fields =>
      extractPath (match lookupStr fields part with | some v => v | none => .null) rest
    | .strMap fields =>
      (match lookupStr fields part with
       | some val => val
       | none => "")
    | _ => ""

/-- `strings.Split(s, sep)` for a single-character separator, by structural
recursion on the characters (e.g. splitting "a..b" on '.' gives
["a", "", "b"], and splitting "" gives [""]). -/
def splitChars (sep : Char) : List Char → List (List Char)
  | [] => [[]]
  | c :: rest =>
    let r := splitChars sep rest
    if c = sep then [] :: r
    else
      match r with
      | [] => [[c]]
      | g :: gs => (c :: g) :: gs

/-- `strings.Split(path, ".")` as used by `handleGroupBy`. -/
def splitPath (s : String) : List String :=
  (splitChars '.' s.data).map (fun cs => String.mk cs)

/-- One step of the grouping loop: `groups[key] = append(groups[key], item)`
on an association list kept in first-insertion key order. -/
def addToBucket (l : List (String × List GoValue)) (k : String) (x : GoValue) :
    List (String × List GoValue) :=
  match l with
  | [] => [(k, [x])]
  | (k', xs) :: rest =>
    if k' = k then (k', xs ++ [x]) :: rest else (k', xs) :: addToBucket rest k x

/-- The grouping loop of `handleGroupBy`. -/
def buckets (keyOf : GoValue → String) (items : List GoValue) :
    List (String × List GoValue) :=
  items.foldl (fun acc x => addToBucket acc (keyOf x) x) []

/-- `handleGroupBy` in groupby.go.  Go iterates the `groups` map in
unspecified order when building the output slice (there is no sorting step);
this model fixes first-insertion order, which is one admissible iteration
order of the Go map.  The emitted `(port, message)` pair is returned. -/
def handleGroupBy (groupByPath : String) (msg : InMessage) :
    Except String (String × OutMessage) :=
  if groupByPath = "" then .error "groupByPath is required in settings"
  else
    let pathParts := splitPath groupByPath
    let gs := buckets (fun item => extractPath item pathParts) msg.items
    .ok (OutPort,
      { context := msg.context
        groups := gs.map (fun kv => { key := kv.1, items := kv.2, count := kv.2.length })
        total := msg.items.length })

end GroupBy

namespace Signal

open CommonModule

/-- `OutPort` in signal.go. -/
def OutPort : String := "out"

/-- `RunningMetadata` in signal.go (lines 16-20): the single metadata key
the signal component writes. -/
def RunningMetadata : String := "signal-running"

/-- `Control` in signal.go. -/
structure Control where
  context : GoValue
  send : Bool
  reset : Bool

/-- Observable side effects of the control-port handler: metadata mutations
emitted on the reconcile port, and the blocking emission on Out. -/
inductive Effect where
  | metaSet (key value : String)
  | emitOut (payload : GoValue)

/-- The component state relevant to the control handler (`controlContext`;
cancel-token bookkeeping has no effect on metadata or emissions and is not
modelled). -/
structure Component where
  controlContext : Option GoValue

/-- Control-port branch of `Handle` in signal.go (lines 71-150).  Non-leader
replicas return immediately.  The leader stores the control context, then:
on Reset it writes metadata `signal-running = "false"` and blocks on
`ctx.Done()` (the returned flag); otherwise it writes metadata
`signal-running = "true"` and then enters the blocking emit on Out with the
control context.  Effects are listed in program order. -/
def handleControl (c : Component) (isLeader : Bool) (msg : Control) :
    Component × List Effect × Bool :=
  if !isLeader then (c, [], false)
  else
    let c' : Component := { controlContext := some msg.context }
    if msg.reset then
      (c', [.metaSet RunningMetadata "false"], true)
    else
      (c', [.metaSet RunningMetadata "true", .emitOut msg.context], false)

/-- Host application of a signal effect trace to the node's metadata map. -/
def applyEffects (md : List (String × String)) : List Effect → List (String × String)
  | [] => md
  | .metaSet k v :: rest => applyEffects (setKey md k v) rest
  | .emitOut _ :: rest => applyEffects md rest

/-- The metadata keys written by an effect trace, in order. -/
def writtenKeys : List Effect → List String
  | [] => []
  | .metaSet k _ :: rest => k :: writtenKeys rest
  | .emitOut _ :: rest => writtenKeys rest

/-- The effects preceding the first blocking emit on Out (the whole trace if
no emit occurs). -/
def beforeEmit : List Effect → List Effect
  | [] => []
  | .emitOut _ :: _ => []
  | e :: rest => e :: beforeEmit rest

end Signal

namespace Async

/-- `defaultMaxConcurrency` in the async component (part_001). -/
def defaultMaxConcurrency : Nat := 100

/-- Async component state: the semaphore channel's capacity and its current
occupancy (number of outstanding background workers holding a slot). -/
structure Component where
  capacity : Nat
  occupied : Nat
deriving Repr, DecidableEq

/-- `Instance()` of the async component: semaphore of capacity 100, empty. -/
def instance_ : Component := { capacity := defaultMaxConcurrency, occupied := 0 }

/-- How the handler performs the emission for one valid in-message. -/
inductive EmitMode where
  | spawnWorker
  | syncEmit
deriving Repr, DecidableEq

/-- In-port branch of `Handle` in the async component (part_001): a
non-blocking send on the semaphore channel; on success a background worker
is spawned (holding the slot until it finishes), on a full semaphore the
emission runs synchronously on the caller's thread. -/
def handleIn (c : Component) : Component × EmitMode :=
  if c.occupied < c.capacity then ({ c with occupied := c.occupied + 1 }, .spawnWorker)
  else (c, .syncEmit)

/-- Settings branch of `Handle`: recreate the semaphore with the configured
capacity (non-positive values fall back to the default 100).  Workers
spawned earlier release into the discarded old channel, so the new
semaphore starts empty. -/
def handleSettings (c : Component) (maxConcurrency : Int) : Component :=
  { c with
    capacity := if maxConcurrency ≤ 0 then defaultMaxConcurrency else maxConcurrency.toNat
    occupied := 0 }

/-- A background worker finishing: the deferred receive releasing its slot. -/
def workerDone (c : Component) : Component := { c with occupied := c.occupied - 1 }

/-- Atomic events of an async component history. -/
inductive Op where
  | inMsg
  | settingsMsg (maxConcurrency : Int)
  | finished

/-- One event of the history. -/
def step (c : Component) : Op → Component
  | .inMsg => (handleIn c).1
  | .settingsMsg m => handleSettings c m
  | .finished => workerDone c

/-- The component state after a history of events starting from `c`. -/
def run (c : Component) (ops : List Op) : Component := ops.foldl step c

end Async

namespace Mixer

open CommonModule

/-- `OutputPort` in the mixer. -/
def OutputPort : String := "output"

/-- `InputSettings` in the mixer (part_006): a declared input port. -/
structure InputSettings where
  name : String
  trigger : Bool

/-- `Settings` in the mixer (part_006). -/
structure Settings where
  inputs : List InputSettings

/-- Mixer state: declared inputs and the concurrent map of last values,
keyed by prop name. -/
structure Component where
  settings : Settings
  inputs : List (String × GoValue)

/-- `strings.ToTitle` as used by `getPropName`/`getDefinitionName` (for the
ASCII port names in play, title case equals upper case), character by
character. -/
def toTitle (s : String) : String := String.mk (s.data.map Char.toUpper)

/-- `getPropName` in the mixer. -/
def getPropName (input : String) : String := "context" ++ toTitle input

/-- `hasInput` in the mixer (part_006): the first declared input with the
given name, if any. -/
def hasInput (c : Component) (name : String) : Option InputSettings :=
  c.settings.inputs.find? (fun i => i.name == name)

/-- `Instance()` of the mixer. -/
def instance_ : Component :=
  { settings := { inputs := [⟨"A", true⟩, ⟨"B", true⟩] }, inputs := [] }

/-- Settings branch of `Handle`: replace settings and clear the stored
values. -/
def handleSettings (c : Component) (s : Settings) : Component :=
  { settings := s, inputs := [] }

/-- Result of one input-port invocation. -/
inductive HandleRes where
  | errRes (msg : String)
  | updated (c : Component)
  | emitted (c : Component) (data : List (String × GoValue))

/-- Input-port branch of `Handle` in the mixer (part_006): store the
arriving context under the port's prop name; if the declared input is not in
trigger mode return without emitting, otherwise emit on the output port a
copy of the stored map with `from` set to the triggering port's name. -/
def handleInput (c : Component) (port : String) (msgContext : GoValue) : HandleRes :=
  match hasInput c port with
  | none => .errRes ("unknown port: " ++ port)
  | some declared =>
    let c' : Component := { c with inputs := setKey c.inputs (getPropName port) msgContext }
    if !declared.trigger then .updated c'
    else .emitted c' (setKey c'.inputs "from" (.str port))

/-- A run of input arrivals (port, context value): fold `handleInput`,
collecting the emissions in order.  Arrivals on undeclared ports return an
error without touching the state. -/
def runInputs (c : Component) (arrivals : List (String × GoValue)) :
    Component × List (List (String × GoValue)) :=
  match arrivals with
  | [] => (c, [])
  | (port, v) :: rest =>
    match handleInput c port v with
    | .errRes _ => runInputs c rest
    | .updated c' => runInputs c' rest
    | .emitted c' data =>
      let r := runInputs c' rest
      (r.1, data :: r.2)

end Mixer

namespace Ticker

/-- Observable events of the ticker worker loop. -/
inductive Event where
  | waitDelay (ms : Nat)
  | emitOut
deriving Repr, DecidableEq

/-- Observable trace of `emit` in ticker.go (lines 78-112) for a run that is
cancelled after `ticks` completed loop iterations: the worker arms a timer
with `delay` ms (`time.NewTimer`), then each iteration waits for the timer
to fire, performs the synchronous emission on Out, and re-arms the timer
with `delay` ms (`timer.Reset`) only after that emission has returned. -/
def emitTrace (delay : Nat) (ticks : Nat) : List Event :=
  match ticks with
  | 0 => []
  | n + 1 => .waitDelay delay :: .emitOut :: emitTrace delay n

end Ticker

namespace Scheduler

open CommonModule

/-- Scheduler state: whether a run context is active, and the task map
(task id to the timer duration it was armed with, `dateTime − now` at
receipt, as nanoseconds). -/
structure State where
  running : Bool
  tasks : List (String × Int)

/-- `addOrUpdateTask` in scheduler.go (lines 223-252): reject when not
running; reject when the duration is negative (`duration.Seconds() < 0` in
Go, equivalent to `duration < 0` nanoseconds since the float conversion
preserves sign); otherwise stop and remove any existing task with this id,
then (when `schedule` is true) arm a fresh timer with the given duration. -/
def addOrUpdateTask (s : State) (id : String) (schedule : Bool) (duration : Int) :
    State × Option String :=
  if !s.running then (s, some "scheduler is not running")
  else if duration < 0 then (s, some "scheduled time is past")
  else
    let tasks' := delKey s.tasks id
    if !schedule then ({ s with tasks := tasks' }, none)
    else ({ s with tasks := tasks' ++ [(id, duration)] }, none)

end Scheduler

namespace Split

open CommonModule

/-- `OutPort` in split.go. -/
def OutPort : String := "out"

/-- `InMessage` in split.go. -/
structure InMessage where
  context : GoValue
  array : List GoValue

/-- `OutMessage` in split.go. -/
structure OutMessage where
  context : GoValue
  item : GoValue

/-- The emission loop of `Handle` in split.go, with `i` the 0-based ordinal
of the next emission.  The downstream handler is modelled as a function from
the call ordinal to the error that call returns (`none` = nil): each element
is emitted on Out in order, and a non-nil downstream error stops the loop
and is returned. -/
def splitGo (context : GoValue) (items : List GoValue) (ds : Nat → Option String)
    (i : Nat) : List (String × OutMessage) × Option String :=
  match items with
  | [] => ([], none)
  | item :: rest =>
    let em := (OutPort, OutMessage.mk context item)
    match ds i with
    | some e => ([em], some e)
    | none =>
      let r := splitGo context rest ds (i + 1)
      (em :: r.1, r.2)

/-- `Handle` in split.go (lines 46-59) on a valid `InMessage`. -/
def handle (msg : InMessage) (ds : Nat → Option String) :
    List (String × OutMessage) × Option String :=
  splitGo msg.context msg.array ds 0

end Split

namespace ArrayGet

open CommonModule

/-- `RequestPort` in the arrayget component (part_007). -/
def RequestPort : String := "request"

/-- `ResultPort` in the arrayget component. -/
def ResultPort : String := "result"

/-- `ErrorPort` in the arrayget component. -/
def ErrorPort : String := "error"

/-- `Request` in the arrayget component: context, array and 1-based index. -/
structure Request where
  context : GoValue
  array : List GoValue
  index : Int

/-- `Result` in the arrayget component. -/
structure ResultMsg where
  context : GoValue
  item : GoValue
  index : Int

/-- `Error` output of the arrayget component. -/
structure ErrorMsg where
  context : GoValue
  error : String

/-- Payloads the arrayget handlers emit. -/
inductive Msg where
  | resultMsg (m : ResultMsg)
  | errorMsg (m : ErrorMsg)

/-- `handleError` in part_007 (lines 301-313): with the error port enabled,
emit `{context, error}` there and return the downstream result; otherwise
return the error. -/
def handleError (enableErrorPort : Bool) (reqContext : GoValue) (errMsg : String)
    (ds : String → Msg → Option String) : List (String × Msg) × Option String :=
  if enableErrorPort then
    let m := Msg.errorMsg { context := reqContext, error := errMsg }
    ([(ErrorPort, m)], ds ErrorPort m)
  else ([], some errMsg)

/-- `handleRequest` in part_007 (lines 283-299): an empty (or nil) array,
an index below 1, or an index above the length goes to `handleError`;
otherwise emit `{context, item = array[index-1], index}` on Result and
return the downstream result. -/
def handleRequest (enableErrorPort : Bool) (req : Request)
    (ds : String → Msg → Option String) : List (String × Msg) × Option String :=
  if req.array.length = 0 then
    handleError enableErrorPort req.context "array is empty — run a list command first" ds
  else if req.index < 1 then
    handleError enableErrorPort req.context
      ("index must be >= 1, got " ++ toString req.index) ds
  else if req.index > (req.array.length : Int) then
    handleError enableErrorPort req.context
      ("item #" ++ toString req.index ++ " not found — list has " ++
        toString req.array.length ++ " item(s)") ds
  else
    let m := Msg.resultMsg
      { context := req.context
        item := (req.array.get? (req.index.toNat - 1)).getD .null
        index := req.index }
    ([(ResultPort, m)], ds ResultPort m)

end ArrayGet

namespace Inject

open CommonModule

/-- `OutputPort` in the inject component (part_004). -/
def OutputPort : String := "output"

/-- `ErrorPort` in the inject component. -/
def ErrorPort : String := "error"

/-- `metadataKeyConfig` in the inject component. -/
def metadataKeyConfig : String := "inject-config"

/-- `Settings` in the inject component (part_004, `configRequired`). -/
structure Settings where
  configRequired : Bool

/-- Inject component state (part_004 lines 52-56): settings, the stored
config (`none` models Go's nil, i.e. no config ever stored), and the
settings-from-port guard. -/
structure Component where
  settings : Settings
  config : Option GoValue
  settingsFromPort : Bool

/-- `Instance()` of the inject component: zero-valued state, so
`configRequired` defaults to false and no config is stored. -/
def instance_ : Component :=
  { settings := { configRequired := false }, config := none, settingsFromPort := false }

/-- `Output` in the inject component; a nil config is emitted as-is (JSON
null downstream). -/
structure Output where
  context : GoValue
  config : Option GoValue

/-- `ErrorOutput` in the inject component. -/
structure ErrorOutput where
  context : GoValue
  error : String

/-- Payloads the inject message handler emits. -/
inductive Msg where
  | out (m : Output)
  | errOut (m : ErrorOutput)

/-- `handleMessage` in part_004 (lines 134-151): when config is required but
nil, emit `{context, "config not set"}` on the error port; otherwise emit
`{context, config}` on Output.  Either way the downstream result is
returned. -/
def handleMessage (c : Component) (msgContext : GoValue)
    (ds : String → Msg → Option String) : List (String × Msg) × Option String :=
  if c.settings.configRequired && c.config.isNone then
    let m := Msg.errOut { context := msgContext, error := "config not set" }
    ([(ErrorPort, m)], ds ErrorPort m)
  else
    let m := Msg.out { context := msgContext, config := c.config }
    ([(OutputPort, m)], ds OutputPort m)

end Inject

namespace Mixer

open CommonModule

/-- The value of the last arrival in `arrivals` that lands on stored-map key
`k`: arrivals on undeclared ports are ignored, declared arrivals store their
context under `getPropName` of their port. -/
def lastArrival (s : Settings) (k : String) : List (String × GoValue) → Option GoValue
  | [] => none
  | (p, v) :: rest =>
    match lastArrival s k rest with
    | some w => some w
    | none =>
      if (s.inputs.find? (fun i => i.name == p)).isSome ∧ getPropName p = k then some v
      else none

end Mixer

section Helpers

open CommonModule

theorem lookupStr_setKey_self {α : Type} (l : List (String × α)) (k : String) (v : α) :
    lookupStr (setKey l k v) k = some v := by
  induction l with
  | nil => simp [setKey, lookupStr]
  | cons kv rest ih =>
    by_cases h : kv.1 = k <;> simp [setKey, lookupStr, h, ih]

theorem lookupStr_setKey_other {α : Type} (l : List (String × α)) (k k' : String) (v : α)
    (h : k ≠ k') : lookupStr (setKey l k v) k' = lookupStr l k' := by
  induction l with
  | nil => simp [setKey, lookupStr, h]
  | cons kv rest ih =>
    by_cases hk : kv.1 = k
    · simp [setKey, lookupStr, hk, h, ih]
    · simp [setKey, lookupStr, hk, ih]

end Helpers

/-- C1: in a kv store whose store-used guard has been set by a store or
delete operation (any request passing primary-key validation sets it, for
either operation), handling any subsequent reconcile message with arbitrary
metadata leaves the records map unchanged.  The guard survives reconciles
and further store/delete handling, so the conclusion applies to every later
reconcile as well. -/
theorem kv_guard_blocks_reconcile (c : Kv.Component) (req : Kv.StoreRequest)
    (h : Kv.validPk c req) :
    (Kv.handleStore c req).comp.storeUsed = true ∧
    (∀ (c' : Kv.Component) (md : Option (List (String × String))),
      c'.storeUsed = true →
      (Kv.handleReconcile c' md).records = c'.records ∧
      (Kv.handleReconcile c' md).storeUsed = true) ∧
    (∀ (c' : Kv.Component) (req' : Kv.StoreRequest),
      c'.storeUsed = true → (Kv.handleStore c' req').comp.storeUsed = true) := by
  obtain ⟨s, hl, hs⟩ := h
  refine ⟨?_, ?_, ?_⟩
  · simp only [Kv.handleStore, hl, hs]
    repeat' split
    all_goals first | rfl | exact False.elim (by assumption)
  · intro c' md h'
    cases md with
    | none => exact ⟨rfl, h'⟩
    | some metadata => simp [Kv.handleReconcile, h']
  · intro c' req' h'
    simp only [Kv.handleStore]
    repeat' split
    all_goals first | rfl | exact h'

/-- C1 witness: a concrete store request with primary key "ep1" on a fresh
instance. -/
theorem kv_guard_blocks_reconcile_witness :
    Kv.validPk Kv.instance_
      { context := .null, operation := "store",
        document := [("id", Kv.DocValue.str "ep1")] } ∧
    (Kv.handleStore Kv.instance_
      { context := .null, operation := "store",
        document := [("id", Kv.DocValue.str "ep1")] }).comp.storeUsed = true :=
  ⟨⟨"ep1", rfl, by decide⟩,
    (kv_guard_blocks_reconcile Kv.instance_
      { context := .null, operation := "store",
        document := [("id", Kv.DocValue.str "ep1")] }
      ⟨"ep1", rfl, by decide⟩).1⟩

section GroupByLemmas

open CommonModule GroupBy

theorem sum_counts_addToBucket (l : List (String × List GoValue)) (k : String) (x : GoValue) :
    ((addToBucket l k x).map (fun kv => kv.2.length)).sum
      = (l.map (fun kv => kv.2.length)).sum + 1 := by
  induction l with
  | nil => simp [addToBucket]
  | cons kv rest ih =>
    by_cases h : kv.1 = k <;> simp [addToBucket, h, ih] <;> omega

theorem sum_counts_buckets_aux (keyOf : GoValue → String) (items : List GoValue)
    (acc : List (String × List GoValue)) :
    ((items.foldl (fun a x => addToBucket a (keyOf x) x) acc).map (fun kv => kv.2.length)).sum
      = (acc.map (fun kv => kv.2.length)).sum + items.length := by
  induction items generalizing acc with
  | nil => simp
  | cons x rest ih =>
    simp only [List.foldl_cons, ih, sum_counts_addToBucket, List.length_cons]
    omega

theorem sum_counts_buckets (keyOf : GoValue → String) (items : List GoValue) :
    ((buckets keyOf items).map (fun kv => kv.2.length)).sum = items.length := by
  simpa using sum_counts_buckets_aux keyOf items []

theorem mem_addToBucket_self (l : List (String × List GoValue)) (k : String) (x : GoValue) :
    ∃ p ∈ addToBucket l k x, p.1 = k ∧ x ∈ p.2 := by
  induction l with
  | nil => exact ⟨(k, [x]), by simp [addToBucket]⟩
  | cons kv rest ih =>
    by_cases h : kv.1 = k
    · exact ⟨(kv.1, kv.2 ++ [x]), by simp [addToBucket, h], h, by simp⟩
    · obtain ⟨p, hp, hk, hx⟩ := ih
      exact ⟨p, by simp [addToBucket, h, hp], hk, hx⟩

theorem mem_addToBucket_mono (l : List (String × List GoValue)) (k' : String) (y : GoValue)
    (k : String) (x : GoValue) (h : ∃ p ∈ l, p.1 = k ∧ x ∈ p.2) :
    ∃ p ∈ addToBucket l k' y, p.1 = k ∧ x ∈ p.2 := by
  induction l with
  | nil => simp at h
  | cons kv rest ih =>
    obtain ⟨p, hp, hk, hx⟩ := h
    by_cases hh : kv.1 = k'
    · have ha : addToBucket (kv :: rest) k' y = (kv.1, kv.2 ++ [y]) :: rest := by
        cases kv; simp [addToBucket]; simp at hh; simp [hh]
      rw [ha]
      rcases List.mem_cons.mp hp with heq | hmem
      · have hk2 : kv.1 = k := by rw [← heq]; exact hk
        have hx2 : x ∈ kv.2 := heq ▸ hx
        exact ⟨(kv.1, kv.2 ++ [y]), List.mem_cons_self _ _, hk2, List.mem_append_left _ hx2⟩
      · exact ⟨p, List.mem_cons_of_mem _ hmem, hk, hx⟩
    · have ha : addToBucket (kv :: rest) k' y = kv :: addToBucket rest k' y := by
        cases kv; simp [addToBucket]; simp at hh; simp [hh]
      rw [ha]
      rcases List.mem_cons.mp hp with heq | hmem
      · exact ⟨p, by rw [heq]; exact List.mem_cons_self _ _, hk, hx⟩
      · obtain ⟨q, hq, hqk, hqx⟩ := ih ⟨p, hmem, hk, hx⟩
        exact ⟨q, List.mem_cons_of_mem _ hq, hqk, hqx⟩

theorem mem_buckets_aux (keyOf : GoValue → String) (items : List GoValue)
    (acc : List (String × List GoValue)) (x : GoValue)
    (h : x ∈ items ∨ ∃ p ∈ acc, p.1 = keyOf x ∧ x ∈ p.2) :
    ∃ p ∈ items.foldl (fun a y => addToBucket a (keyOf y) y) acc, p.1 = keyOf x ∧ x ∈ p.2 := by
  induction items generalizing acc with
  | nil =>
    rcases h with h | h
    · simp at h
    · simpa using h
  | cons y rest ih =>
    simp only [List.foldl_cons]
    apply ih
    rcases h with h | h
    · rcases List.mem_cons.mp h with rfl | hx
      · right; exact mem_addToBucket_self acc (keyOf x) x
      · left; exact hx
    · right; exact mem_addToBucket_mono acc (keyOf y) y (keyOf x) x h

theorem mem_buckets (keyOf : GoValue → String) (items : List GoValue) (x : GoValue)
    (hx : x ∈ items) :
    ∃ p ∈ buckets keyOf items, p.1 = keyOf x ∧ x ∈ p.2 :=
  mem_buckets_aux keyOf items [] x (Or.inl hx)

end GroupByLemmas

/-- C2 counterexample: two items whose group keys are "b" then "a".  The
handler emits the groups in map-iteration (here first-insertion) order
["b", "a"], which is not ascending string order — `handleGroupBy` contains
no sorting step — so the claim's sortedness conjunct fails as stated. -/
theorem groupby_sorted_counterexample :
    ((GroupBy.handleGroupBy "k"
        { context := .null,
          items := [.obj [("k", .str "b")], .obj [("k", .str "a")]] }).map
      (fun pm => pm.2.groups.map (fun g => g.key))) = .ok ["b", "a"] ∧
    ¬ List.Sorted CommonModule.strLe ["b", "a"] := by
  constructor
  · rfl
  · decide

/-- C2 (amended): for every group-by invocation with a non-empty group-by
path, the emitted output has `total` equal to the input items length, the
sum of `count` over all groups equals `total` (each group's count being its
item count), empty input items yield zero groups, and items whose path does
not resolve land in the empty-string key bucket.  The groups appear in
map-iteration order (first-insertion order in this model), which is not
necessarily sorted. -/
theorem groupby_output_invariants (path : String) (msg : GroupBy.InMessage)
    (hpath : path ≠ "") :
    ∃ out, GroupBy.handleGroupBy path msg = .ok (GroupBy.OutPort, out) ∧
      out.total = msg.items.length ∧
      (out.groups.map (fun g => g.count)).sum = out.total ∧
      (∀ g ∈ out.groups, g.count = g.items.length) ∧
      (msg.items = [] → out.groups = []) ∧
      (∀ item ∈ msg.items,
        GroupBy.extractPath item (GroupBy.splitPath path) = "" →
        ∃ g ∈ out.groups, g.key = "" ∧ item ∈ g.items) := by
  have hout : GroupBy.handleGroupBy path msg = .ok (GroupBy.OutPort,
      { context := msg.context
        groups := (GroupBy.buckets (fun item => GroupBy.extractPath item (GroupBy.splitPath path))
            msg.items).map (fun kv => { key := kv.1, items := kv.2, count := kv.2.length })
        total := msg.items.length }) := by
    simp [GroupBy.handleGroupBy, hpath]
  refine ⟨_, hout, rfl, ?_, ?_, ?_, ?_⟩
  · simp only [List.map_map]
    exact sum_counts_buckets _ msg.items
  · intro g hg
    obtain ⟨kv, _, rfl⟩ := List.mem_map.mp hg
    rfl
  · intro h
    simp [h, GroupBy.buckets]
  · intro item hi hkey
    obtain ⟨p, hp, hk, hx⟩ :=
      mem_buckets (fun item => GroupBy.extractPath item (GroupBy.splitPath path)) msg.items item hi
    refine ⟨{ key := p.1, items := p.2, count := p.2.length },
      List.mem_map_of_mem _ hp, ?_, hx⟩
    simpa [hkey] using hk

/-- C2 witness: a single-item invocation with path "k". -/
theorem groupby_output_invariants_witness :
    ("k" : String) ≠ "" ∧
    ∃ out, GroupBy.handleGroupBy "k"
        { context := CommonModule.GoValue.null, items := [CommonModule.GoValue.str "x"] }
        = .ok (GroupBy.OutPort, out) ∧ out.total = 1 := by
  have h := groupby_output_invariants "k"
    { context := CommonModule.GoValue.null, items := [CommonModule.GoValue.str "x"] } (by decide)
  obtain ⟨out, h1, h2, _⟩ := h
  exact ⟨by decide, out, h1, h2⟩

/-- C3 counterexample: on a leader instance, handling Send writes only the
metadata key `signal-running` — no `signal-context` key exists in the code,
so the serialized context is not persisted — and handling Reset does not
remove the running-marker key but sets it to "false": after Reset the
metadata still contains `signal-running`.  Both parts of the claim
("persists ... the serialized context under metadata key signal-context"
and "Reset removes (clears) both of those metadata keys") therefore fail. -/
theorem signal_metadata_counterexample :
    Signal.writtenKeys
        (Signal.handleControl { controlContext := none } true
          { context := .str "c", send := true, reset := false }).2.1
      = [Signal.RunningMetadata] ∧
    CommonModule.lookupStr
        (Signal.applyEffects [(Signal.RunningMetadata, "true")]
          (Signal.handleControl { controlContext := none } true
            { context := .str "c", send := false, reset := true }).2.1)
        "signal-running" = some "false" ∧
    CommonModule.lookupStr
        (Signal.applyEffects [(Signal.RunningMetadata, "true")]
          (Signal.handleControl { controlContext := none } true
            { context := .str "c", send := false, reset := true }).2.1)
        "signal-context" = none := by
  refine ⟨rfl, rfl, rfl⟩

/-- C3 (amended): for every leader signal instance, handling a control
message without Reset (the Send path) emits exactly the metadata write
`signal-running = "true"` followed by the blocking emit of the control
context on Out — so the running marker is persisted before the blocking
emit is entered — and handling a control message with Reset emits exactly
the metadata write `signal-running = "false"` and no emit on Out.  No other
metadata key (in particular no `signal-context`) is ever written, and the
keys are set rather than removed. -/
theorem signal_running_marker (c : Signal.Component) (msg : Signal.Control) :
    (msg.reset = false →
      (Signal.handleControl c true msg).2.1 =
        [.metaSet Signal.RunningMetadata "true", .emitOut msg.context]) ∧
    (msg.reset = true →
      (Signal.handleControl c true msg).2.1 =
        [.metaSet Signal.RunningMetadata "false"]) ∧
    Signal.writtenKeys (Signal.handleControl c true msg).2.1 = [Signal.RunningMetadata] := by
  refine ⟨?_, ?_, ?_⟩
  · intro h
    simp [Signal.handleControl, h]
  · intro h
    simp [Signal.handleControl, h]
  · by_cases h : msg.reset
    · simp [Signal.handleControl, h, Signal.writtenKeys]
    · simp [Signal.handleControl, h, Signal.writtenKeys]

/-- C3 witness: the Send path on a concrete leader instance. -/
theorem signal_running_marker_witness :
    (Signal.handleControl { controlContext := none } true
        { context := .null, send := true, reset := false }).2.1 =
      [.metaSet Signal.RunningMetadata "true", .emitOut .null] :=
  (signal_running_marker { controlContext := none }
    { context := .null, send := true, reset := false }).1 rfl

/-- C6 counterexample: with `delay` = 1000 and one completed loop iteration
the ticker trace is `[waitDelay 1000, emitOut]`: the run begins with the
timer wait, so the first emission does not occur immediately upon Start
(before any delay wait) as the claim states — `emit` in ticker.go arms the
timer with `delay` before the first emission. -/
theorem ticker_first_tick_counterexample :
    Ticker.emitTrace 1000 1 = [.waitDelay 1000, .emitOut] ∧
    (Ticker.emitTrace 1000 1).head? ≠ some .emitOut := by
  refine ⟨rfl, by decide⟩

/-- C6 (amended): for every ticker run started via the control port, the
trace of a run with `n` completed iterations is `n` repetitions of
`[waitDelay delay, emitOut]`: the first emission occurs only after an
initial wait of `delay` ms, and each subsequent wait of `delay` ms begins
only after the previous emit call has returned (delay is measured from
downstream completion, not from tick start). -/
theorem ticker_delay_between_emissions (delay n : Nat) :
    Ticker.emitTrace delay n =
      (List.replicate n [Ticker.Event.waitDelay delay, Ticker.Event.emitOut]).join ∧
    (Ticker.emitTrace delay (n + 1)).head? = some (.waitDelay delay) := by
  constructor
  · induction n with
    | zero => rfl
    | succ m ih => simp [Ticker.emitTrace, ih, List.replicate_succ]
  · rfl

/-- C7 counterexample: a running scheduler holding task "t1" receives a
schedule=true update for "t1" whose dateTime lies 3 units in the past
(duration −3).  The claim requires the existing timer to be stopped and
reset to fire after max(0, −3) = 0, i.e. immediately; instead
`addOrUpdateTask` rejects the request with "scheduled time is past" and
leaves the task map unchanged (the old timer keeps running). -/
theorem scheduler_past_task_counterexample :
    Scheduler.addOrUpdateTask { running := true, tasks := [("t1", 5)] } "t1" true (-3) =
      ({ running := true, tasks := [("t1", 5)] }, some "scheduled time is past") := rfl

/-- C7 (amended): for every running scheduler receiving a task with
schedule=true: when `dateTime − now` is nonnegative, any existing task with
the same id has its timer stopped and removed and a fresh timer armed with
`dateTime − now` replaces it (a new timer is created when no task with that
id exists — `delKey` is then the identity); when `dateTime − now` is
negative the task is rejected with "scheduled time is past" and the task
map is left unchanged. -/
theorem scheduler_add_or_update (s : Scheduler.State) (id : String) (d : Int)
    (hrun : s.running = true) :
    (0 ≤ d → Scheduler.addOrUpdateTask s id true d =
      ({ s with tasks := CommonModule.delKey s.tasks id ++ [(id, d)] }, none)) ∧
    (d < 0 → Scheduler.addOrUpdateTask s id true d = (s, some "scheduled time is past")) := by
  constructor
  · intro hd
    simp [Scheduler.addOrUpdateTask, hrun, not_lt.mpr hd]
  · intro hd
    simp [Scheduler.addOrUpdateTask, hrun, hd]

/-- C7 witness: a fresh task on a running scheduler with an empty task
map. -/
theorem scheduler_add_or_update_witness :
    Scheduler.addOrUpdateTask { running := true, tasks := [] } "t1" true 7 =
      ({ running := true, tasks := [("t1", 7)] }, none) :=
  (scheduler_add_or_update { running := true, tasks := [] } "t1" 7 rfl).1 (by decide)

section AsyncLemmas

theorem async_step_invariant (c : Async.Component) (op : Async.Op)
    (h : c.occupied ≤ c.capacity) :
    (Async.step c op).occupied ≤ (Async.step c op).capacity := by
  cases op with
  | inMsg =>
    simp only [Async.step, Async.handleIn]
    split
    · next hlt => exact hlt
    · exact h
  | settingsMsg m => simp [Async.step, Async.handleSettings]
  | finished =>
    simp only [Async.step, Async.workerDone]
    omega

theorem async_run_invariant (ops : List Async.Op) (c : Async.Component)
    (h : c.occupied ≤ c.capacity) :
    (Async.run c ops).occupied ≤ (Async.run c ops).capacity := by
  induction ops generalizing c with
  | nil => exact h
  | cons op rest ih =>
    exact ih (Async.step c op) (async_step_invariant c op h)

end AsyncLemmas

/-- C4: for every async pass-through history starting from a state whose
semaphore occupancy respects its capacity (as the fresh instance does), the
number of outstanding background emission workers stays bounded by the
semaphore capacity; the capacity defaults to 100 on the fresh instance and
is configurable via settings (non-positive values fall back to 100); and
whenever the semaphore is full the handler performs the emission
synchronously on the caller's thread (leaving the state unchanged) instead
of spawning a worker. -/
theorem async_semaphore_bound (ops : List Async.Op) (c : Async.Component)
    (hinv : c.occupied ≤ c.capacity) :
    (Async.run c ops).occupied ≤ (Async.run c ops).capacity ∧
    Async.instance_.capacity = 100 ∧ Async.instance_.occupied = 0 ∧
    (∀ c' : Async.Component, c'.capacity ≤ c'.occupied →
      Async.handleIn c' = (c', .syncEmit)) ∧
    (∀ c' : Async.Component, c'.occupied < c'.capacity →
      Async.handleIn c' = ({ c' with occupied := c'.occupied + 1 }, .spawnWorker)) ∧
    (∀ (c' : Async.Component) (m : Int), 0 < m →
      (Async.handleSettings c' m).capacity = m.toNat) ∧
    (∀ c' : Async.Component, (Async.handleSettings c' 0).capacity = 100) := by
  refine ⟨async_run_invariant ops c hinv, rfl, rfl, ?_, ?_, ?_, ?_⟩
  · intro c' h
    simp [Async.handleIn, Nat.not_lt.mpr h]
  · intro c' h
    simp [Async.handleIn, h]
  · intro c' m hm
    simp [Async.handleSettings, Int.not_le.mpr hm]
  · intro c'
    simp [Async.handleSettings, Async.defaultMaxConcurrency]

/-- C4 witness: two in-messages on the fresh instance. -/
theorem async_semaphore_bound_witness :
    (Async.run Async.instance_ [.inMsg, .inMsg]).occupied ≤
      (Async.run Async.instance_ [.inMsg, .inMsg]).capacity :=
  (async_semaphore_bound [.inMsg, .inMsg] Async.instance_ (by decide)).1

section SplitLemmas

open CommonModule

theorem splitGo_all_ok (context : GoValue) (items : List GoValue)
    (ds : Nat → Option String) (i : Nat) (hok : ∀ j, ds j = none) :
    Split.splitGo context items ds i =
      (items.map (fun item => (Split.OutPort, Split.OutMessage.mk context item)), none) := by
  induction items generalizing i with
  | nil => rfl
  | cons item rest ih =>
    simp [Split.splitGo, hok i, ih (i + 1)]

theorem splitGo_stops_at_error (context : GoValue) (items : List GoValue)
    (ds : Nat → Option String) (i k : Nat) (e : String)
    (hbefore : ∀ j, j < k → ds (i + j) = none) (hk : ds (i + k) = some e)
    (hlen : k < items.length) :
    (Split.splitGo context items ds i).1 =
      (items.take (k + 1)).map (fun item => (Split.OutPort, Split.OutMessage.mk context item)) ∧
    (Split.splitGo context items ds i).2 = some e := by
  induction items generalizing i k with
  | nil => simp at hlen
  | cons item rest ih =>
    cases k with
    | zero =>
      have h0 : ds i = some e := by simpa using hk
      simp [Split.splitGo, h0]
    | succ m =>
      have h0 : ds i = none := by simpa using hbefore 0 (Nat.succ_pos m)
      have hb : ∀ j, j < m → ds (i + 1 + j) = none := by
        intro j hj
        have := hbefore (j + 1) (by omega)
        simpa [Nat.add_comm, Nat.add_left_comm, Nat.add_assoc] using this
      have hke : ds (i + 1 + m) = some e := by
        have := hk
        simpa [Nat.add_comm, Nat.add_left_comm, Nat.add_assoc] using this
      have hlen' : m < rest.length := by simpa using hlen
      obtain ⟨ih1, ih2⟩ := ih (i + 1) m hb hke hlen'
      simp [Split.splitGo, h0, ih1, ih2]

end SplitLemmas

/-- C8: for every split invocation with a valid input of N elements and a
downstream handler that never errors, the handler emits exactly the N
`{context, item}` messages on Out, in array order and on no other port, and
returns nil; and when the downstream handler first returns an error at the
k-th emission (k < N), emission stops at that element — exactly the first
k+1 elements are emitted — and the handler returns that error. -/
theorem split_emits_in_order (msg : Split.InMessage) (ds : Nat → Option String)
    (hok : ∀ j, ds j = none) :
    Split.handle msg ds =
      (msg.array.map (fun item => (Split.OutPort, Split.OutMessage.mk msg.context item)), none) ∧
    (Split.handle msg ds).1.length = msg.array.length ∧
    (∀ em ∈ (Split.handle msg ds).1, em.1 = Split.OutPort) ∧
    (∀ (ds' : Nat → Option String) (k : Nat) (e : String),
      (∀ j, j < k → ds' j = none) → ds' k = some e → k < msg.array.length →
      (Split.handle msg ds').1 =
        (msg.array.take (k + 1)).map
          (fun item => (Split.OutPort, Split.OutMessage.mk msg.context item)) ∧
      (Split.handle msg ds').2 = some e) := by
  have hall := splitGo_all_ok msg.context msg.array ds 0 hok
  refine ⟨hall, ?_, ?_, ?_⟩
  · simp [Split.handle, hall]
  · intro em hem
    rw [Split.handle, hall] at hem
    obtain ⟨item, _, rfl⟩ := List.mem_map.mp hem
    rfl
  · intro ds' k e hb hk hlen
    exact splitGo_stops_at_error msg.context msg.array ds' 0 k e (by simpa using hb)
      (by simpa using hk) hlen

/-- C8 witness: the spec's concrete scenario, context 42 with array
[1, 2, 5] and an error-free downstream. -/
theorem split_emits_in_order_witness :
    Split.handle { context := .num 42, array := [.num 1, .num 2, .num 5] } (fun _ => none) =
      ([(Split.OutPort, Split.OutMessage.mk (.num 42) (.num 1)),
        (Split.OutPort, Split.OutMessage.mk (.num 42) (.num 2)),
        (Split.OutPort, Split.OutMessage.mk (.num 42) (.num 5))], none) :=
  (split_emits_in_order { context := .num 42, array := [.num 1, .num 2, .num 5] }
    (fun _ => none) (fun _ => rfl)).1

/-- C9: for every array-get request (with a downstream handler returning
nil, matching the claim's "returns null"): if 1 ≤ index ≤ length the handler
emits `{context, item, index}` on Result with item = array[index-1] and
returns nil; if the array is empty (a nil Go slice also has length 0),
index < 1, or index > length, then with the error port enabled the error is
emitted there as `{context, error}` and the handler returns nil, and with it
disabled the handler emits nothing and returns the error. -/
theorem arrayget_request_semantics (enable : Bool) (req : ArrayGet.Request)
    (ds : String → ArrayGet.Msg → Option String) (hds : ∀ p m, ds p m = none) :
    (1 ≤ req.index → req.index ≤ (req.array.length : Int) →
      ∃ item, req.array.get? (req.index.toNat - 1) = some item ∧
        ArrayGet.handleRequest enable req ds =
          ([(ArrayGet.ResultPort,
            .resultMsg { context := req.context, item := item, index := req.index })], none)) ∧
    ((req.array.length = 0 ∨ req.index < 1 ∨ (req.array.length : Int) < req.index) →
      ∃ emsg,
        (enable = true →
          ArrayGet.handleRequest enable req ds =
            ([(ArrayGet.ErrorPort, .errorMsg { context := req.context, error := emsg })], none)) ∧
        (enable = false →
          ArrayGet.handleRequest enable req ds = ([], some emsg))) := by
  constructor
  · intro h1 h2
    have hlen0 : ¬ req.array.length = 0 := by omega
    have hnat : req.index.toNat - 1 < req.array.length := by omega
    refine ⟨req.array.get ⟨req.index.toNat - 1, hnat⟩, List.get?_eq_get hnat, ?_⟩
    simp only [ArrayGet.handleRequest]
    rw [if_neg hlen0, if_neg (by omega : ¬ req.index < 1),
      if_neg (by omega : ¬ req.index > (req.array.length : Int))]
    simp [hds, List.getElem?_eq_getElem hnat, List.get?_eq_get hnat]
  · intro hE
    by_cases h0 : req.array.length = 0
    · refine ⟨"array is empty — run a list command first", ?_, ?_⟩ <;> intro he <;>
        simp [ArrayGet.handleRequest, h0, ArrayGet.handleError, he, hds]
    · by_cases h1 : req.index < 1
      · refine ⟨"index must be >= 1, got " ++ toString req.index, ?_, ?_⟩ <;> intro he <;>
          simp [ArrayGet.handleRequest, h0, h1, ArrayGet.handleError, he, hds]
      · have h2 : req.index > (req.array.length : Int) := by
          rcases hE with h | h | h
          · exact absurd h h0
          · exact absurd h h1
          · omega
        refine ⟨"item #" ++ toString req.index ++ " not found — list has " ++
            toString req.array.length ++ " item(s)", ?_, ?_⟩ <;> intro he <;>
          simp [ArrayGet.handleRequest, h0, h1, h2, ArrayGet.handleError, he, hds]

/-- C9 witness: index 2 of a two-element array with the error port
disabled. -/
theorem arrayget_request_semantics_witness :
    ArrayGet.handleRequest false
        { context := .null, array := [.str "a", .str "b"], index := 2 } (fun _ _ => none) =
      ([(ArrayGet.ResultPort,
        .resultMsg { context := .null, item := .str "b", index := 2 })], none) := by
  obtain ⟨item, hitem, heq⟩ :=
    (arrayget_request_semantics false
      { context := .null, array := [.str "a", .str "b"], index := 2 }
      (fun _ _ => none) (fun _ _ => rfl)).1 (by decide) (by decide)
  have hi := Option.some.inj hitem
  rw [← hi] at heq
  exact heq

/-- C10: for every inject instance whose configRequired setting is false
(as it is on the fresh instance, whose config is also nil), a message
arriving on the Message port when no config has been stored is not an
error: the handler emits exactly `{context, config}` on Output with config
nil (JSON null) and touches no other port — in particular not the Error
port — returning the downstream's result. -/
theorem inject_message_without_config (c : Inject.Component)
    (ctxv : CommonModule.GoValue) (ds : String → Inject.Msg → Option String)
    (hreq : c.settings.configRequired = false) (hcfg : c.config = none) :
    Inject.handleMessage c ctxv ds =
      ([(Inject.OutputPort, .out { context := ctxv, config := none })],
        ds Inject.OutputPort (.out { context := ctxv, config := none })) ∧
    (∀ em ∈ (Inject.handleMessage c ctxv ds).1, em.1 ≠ Inject.ErrorPort) ∧
    Inject.instance_.settings.configRequired = false ∧
    Inject.instance_.config = none := by
  have h : Inject.handleMessage c ctxv ds =
      ([(Inject.OutputPort, .out { context := ctxv, config := none })],
        ds Inject.OutputPort (.out { context := ctxv, config := none })) := by
    simp [Inject.handleMessage, hreq, hcfg]
  refine ⟨h, ?_, rfl, rfl⟩
  intro em hem
  rw [h] at hem
  have he := List.mem_singleton.mp hem
  rw [he]
  show Inject.OutputPort ≠ Inject.ErrorPort
  decide

/-- C10 witness: a message on the fresh instance with a nil-returning
downstream. -/
theorem inject_message_without_config_witness :
    Inject.handleMessage Inject.instance_ .null (fun _ _ => none) =
      ([(Inject.OutputPort, .out { context := .null, config := none })], none) :=
  (inject_message_without_config Inject.instance_ .null (fun _ _ => none) rfl rfl).1

section MixerLemmas

open CommonModule

theorem mixer_run_stored (arrivals : List (String × GoValue)) (c : Mixer.Component)
    (k : String) :
    lookupStr (Mixer.runInputs c arrivals).1.inputs k =
      match Mixer.lastArrival c.settings k arrivals with
      | some w => some w
      | none => lookupStr c.inputs k := by
  induction arrivals generalizing c with
  | nil => rfl
  | cons a rest ih =>
    obtain ⟨p, v⟩ := a
    cases hdecl : Mixer.hasInput c p with
    | none =>
      have hfind : (c.settings.inputs.find? (fun i => i.name == p)).isSome = false := by
        have h0 : Mixer.hasInput c p = c.settings.inputs.find? (fun i => i.name == p) := rfl
        rw [← h0, hdecl]
        rfl
      have hrun : Mixer.runInputs c ((p, v) :: rest) = Mixer.runInputs c rest := by
        simp [Mixer.runInputs, Mixer.handleInput, hdecl]
      rw [hrun, ih c]
      have hla : Mixer.lastArrival c.settings k ((p, v) :: rest) =
          Mixer.lastArrival c.settings k rest := by
        simp only [Mixer.lastArrival, hfind]
        cases Mixer.lastArrival c.settings k rest <;> simp
      rw [hla]
    | some decl =>
      have hfind : (c.settings.inputs.find? (fun i => i.name == p)).isSome = true := by
        have h0 : Mixer.hasInput c p = c.settings.inputs.find? (fun i => i.name == p) := rfl
        rw [← h0, hdecl]
        rfl
      have hrun : (Mixer.runInputs c ((p, v) :: rest)).1 =
          (Mixer.runInputs { c with inputs := setKey c.inputs (Mixer.getPropName p) v } rest).1 := by
        cases htr : decl.trigger <;>
          simp [Mixer.runInputs, Mixer.handleInput, hdecl, htr]
      rw [hrun, ih { c with inputs := setKey c.inputs (Mixer.getPropName p) v }]
      have hsets : ({ c with inputs := setKey c.inputs (Mixer.getPropName p) v } :
          Mixer.Component).settings = c.settings := rfl
      rw [hsets]
      have hla : Mixer.lastArrival c.settings k ((p, v) :: rest) =
          match Mixer.lastArrival c.settings k rest with
          | some w => some w
          | none => if Mixer.getPropName p = k then some v else none := by
        simp only [Mixer.lastArrival, hfind]
        cases Mixer.lastArrival c.settings k rest <;> simp
      rw [hla]
      cases hrest : Mixer.lastArrival c.settings k rest with
      | some w => rfl
      | none =>
        by_cases hpk : Mixer.getPropName p = k
        · subst hpk
          simp [lookupStr_setKey_self]
        · rw [show ({ c with inputs := setKey c.inputs (Mixer.getPropName p) v } :
              Mixer.Component).inputs = setKey c.inputs (Mixer.getPropName p) v from rfl,
            lookupStr_setKey_other c.inputs (Mixer.getPropName p) k v hpk]
          simp [hpk]

end MixerLemmas

/-- C5: for every mixer whose settings declare inputs as {name, trigger}
pairs: a value arriving on an input declared with trigger=false only updates
the stored state (no emission); a value arriving on an input declared with
trigger=true emits on the output port the stored map extended with `from` =
the triggering port's name; the emitted record's `from` entry is the
triggering port and its other entries are untouched by the `from` write;
and after any run of arrivals the stored entry for a key is the last value
that arrived for it (so the emitted record carries the last value seen on
each named input that has received one). -/
theorem mixer_trigger_semantics (c : Mixer.Component) (port : String)
    (v : CommonModule.GoValue) (decl : Mixer.InputSettings)
    (hdecl : Mixer.hasInput c port = some decl) :
    (decl.trigger = false →
      Mixer.handleInput c port v =
        .updated { c with inputs := CommonModule.setKey c.inputs (Mixer.getPropName port) v }) ∧
    (decl.trigger = true →
      Mixer.handleInput c port v =
        .emitted { c with inputs := CommonModule.setKey c.inputs (Mixer.getPropName port) v }
          (CommonModule.setKey
            (CommonModule.setKey c.inputs (Mixer.getPropName port) v) "from" (.str port))) ∧
    (∀ data : List (String × CommonModule.GoValue),
      CommonModule.lookupStr (CommonModule.setKey data "from" (.str port)) "from" =
        some (.str port)) ∧
    (∀ (data : List (String × CommonModule.GoValue)) (k : String), k ≠ "from" →
      CommonModule.lookupStr (CommonModule.setKey data "from" (.str port)) k =
        CommonModule.lookupStr data k) ∧
    (∀ (arrivals : List (String × CommonModule.GoValue)) (k : String),
      CommonModule.lookupStr (Mixer.runInputs c arrivals).1.inputs k =
        match Mixer.lastArrival c.settings k arrivals with
        | some w => some w
        | none => CommonModule.lookupStr c.inputs k) := by
  refine ⟨?_, ?_, ?_, ?_, ?_⟩
  · intro htr
    simp [Mixer.handleInput, hdecl, htr]
  · intro htr
    simp [Mixer.handleInput, hdecl, htr]
  · intro data
    exact lookupStr_setKey_self data "from" (.str port)
  · intro data k hk
    exact lookupStr_setKey_other data "from" k (.str port) (fun h => hk h.symm)
  · intro arrivals k
    exact mixer_run_stored arrivals c k

/-- C5 witness: input "A" declared with trigger=false on a fresh mixer
reconfigured to inputs A (non-trigger) and B (trigger): the arrival only
updates state. -/
theorem mixer_trigger_semantics_witness :
    Mixer.handleInput
        (Mixer.handleSettings Mixer.instance_
          { inputs := [⟨"A", false⟩, ⟨"B", true⟩] }) "A" (.num 1) =
      .updated
        { settings := { inputs := [⟨"A", false⟩, ⟨"B", true⟩] },
          inputs := [("contextA", .num 1)] } :=
  (mixer_trigger_semantics
    (Mixer.handleSettings Mixer.instance_ { inputs := [⟨"A", false⟩, ⟨"B", true⟩] })
    "A" (.num 1) ⟨"A", false⟩ rfl).1 rfl
